import Mathlib

/-!
Verification of the `better-returns` Option/Result combinator library.

The two source modules (`src/option.ts`, `src/result.ts`) define tagged
unions `Option<T>` (`Some`/`None`) and `Result<T, E>` (`Ok`/`Err`) with a
small combinator algebra. Each TypeScript function is embedded below as a
Lean definition with the same name; `Array.prototype.reduce` is embedded
as `List.foldl` with the reducer made explicit as an `allStep` definition.
-/

namespace BetterReturns

/-- Tagged union `Option<T>`: case `some` holds a value, case `none` holds
nothing (`src/option.ts`). -/
inductive Option (T : Type) where
  | some (value : T)
  | none
deriving DecidableEq, Repr

namespace Option

/-- `is_some(option)`: `option.type === "some"`. -/
def is_some {T : Type} : Option T → Bool
  | .some _ => true
  | .none => false

/-- `is_none(option)`: `!is_some(option)`. -/
def is_none {T : Type} (option : Option T) : Bool :=
  !is_some option

/-- `unwrap(option, with_default)`: the held value on `some`, otherwise the
default. -/
def unwrap {T : Type} (option : Option T) (with_default : T) : T :=
  match option with
  | .some v => v
  | .none => with_default

/-- `map(option, predicate)`: on `some`, wrap `predicate` of the value;
otherwise `none` (the function argument is not used on that path). -/
def map {T U : Type} (option : Option T) (predicate : T → U) : Option U :=
  match option with
  | .some v => .some (predicate v)
  | .none => .none

/-- `then(option, apply)`: on `some`, return `apply` of the value directly;
otherwise `none` (the function argument is not used on that path). -/
def «then» {T U : Type} (option : Option T) (apply : T → Option U) : Option U :=
  match option with
  | .some v => apply v
  | .none => .none

/-- Reducer of `all`: if the element or the accumulator is `none` the
result is `none`, otherwise the element's value is appended. -/
def allStep {T : Type} (acc : Option (List T)) (option : Option T) :
    Option (List T) :=
  match option, acc with
  | .none, _ => .none
  | _, .none => .none
  | .some v, .some vs => .some (vs ++ [v])

/-- `all(list)`: `list.reduce(allStep, some([]))`. -/
def all {T : Type} (list : List (Option T)) : Option (List T) :=
  list.foldl allStep (.some [])

end Option

/-- Tagged union `Result<T, E>`: case `ok` holds a success value, case
`err` holds an error value (`src/result.ts`). -/
inductive Result (T E : Type) where
  | ok (value : T)
  | err (value : E)
deriving DecidableEq, Repr

namespace Result

/-- `is_ok(result)`: `result.type === "ok"`. -/
def is_ok {T E : Type} : Result T E → Bool
  | .ok _ => true
  | .err _ => false

/-- `is_err(result)`: `!is_ok(result)`. -/
def is_err {T E : Type} (result : Result T E) : Bool :=
  !is_ok result

/-- `unwrap(result, with_default)`: success value on `ok`, otherwise the
default. -/
def unwrap {T E : Type} (result : Result T E) (with_default : T) : T :=
  match result with
  | .ok v => v
  | .err _ => with_default

/-- `unwrap_error(result, with_default)`: error value on `err`, otherwise
the default. -/
def unwrap_error {T E : Type} (result : Result T E) (with_default : E) : E :=
  match result with
  | .err e => e
  | .ok _ => with_default

/-- `map(result, apply)`: on `ok`, wrap `apply` of the value; an `err`
passes through unchanged. -/
def map {T E U : Type} (result : Result T E) (apply : T → U) : Result U E :=
  match result with
  | .ok v => .ok (apply v)
  | .err e => .err e

/-- `map_error(result, apply)`: on `err`, wrap `apply` of the error value;
an `ok` passes through unchanged. -/
def map_error {T E U : Type} (result : Result T E) (apply : E → U) :
    Result T U :=
  match result with
  | .err e => .err (apply e)
  | .ok v => .ok v

/-- `replace(result, value)`: on `ok`, substitute `value`; an `err` passes
through unchanged. -/
def replace {T E U : Type} (result : Result T E) (value : U) : Result U E :=
  match result with
  | .ok _ => .ok value
  | .err e => .err e

/-- `replace_error(result, value)`: on `err`, substitute `value`; an `ok`
passes through unchanged. -/
def replace_error {T E U : Type} (result : Result T E) (value : U) :
    Result T U :=
  match result with
  | .err _ => .err value
  | .ok v => .ok v

/-- `or(left, right)`: `left` if it is `ok`, otherwise `right`. -/
def or {T E : Type} (left right : Result T E) : Result T E :=
  if is_ok left then left else right

/-- `then(result, apply)`: on `ok`, return `apply` of the value directly;
an `err` passes through unchanged. -/
def «then» {T E U : Type} (result : Result T E) (apply : T → Result U E) :
    Result U E :=
  match result with
  | .ok v => apply v
  | .err e => .err e

/-- Reducer of `all`: an `err` accumulator is returned unchanged; an `err`
element turns the accumulator into that error; otherwise the element's
value is appended. -/
def allStep {T E : Type} (acc : Result (List T) E) (result : Result T E) :
    Result (List T) E :=
  match acc with
  | .err e => .err e
  | .ok vs =>
    match result with
    | .err e => .err e
    | .ok v => .ok (vs ++ [v])

/-- `all(list)`: `list.reduce(allStep, ok([]))`. -/
def all {T E : Type} (list : List (Result T E)) : Result (List T) E :=
  list.foldl allStep (.ok [])

end Result

/-! Fold lemmas for the two `all` reducers. -/

/-- Once the accumulator of `Option.all` is `none`, the fold stays `none`. -/
theorem option_foldl_none {T : Type} (l : List (Option T)) :
    l.foldl Option.allStep .none = .none := by
  induction l with
  | nil => rfl
  | cons o t ih =>
    cases o <;> simpa [Option.allStep] using ih

/-- Running the `Option.all` fold from a `some` accumulator prepends the
accumulated values to the result of `Option.all` on the rest. -/
theorem option_foldl_some {T : Type} (l : List (Option T)) (vs : List T) :
    l.foldl Option.allStep (.some vs) =
      match Option.all l with
      | .some ws => .some (vs ++ ws)
      | .none => .none := by
  induction l generalizing vs with
  | nil => simp [Option.all]
  | cons o t ih =>
    cases o with
    | none =>
      simp [Option.all, Option.allStep, option_foldl_none]
    | some v =>
      have hall : Option.all (Option.some v :: t) =
          t.foldl Option.allStep (.some [v]) := by
        simp [Option.all, Option.allStep]
      rw [hall, ih]
      have hstep : List.foldl Option.allStep (Option.some vs)
          (Option.some v :: t) = t.foldl Option.allStep (.some (vs ++ [v])) := by
        simp [Option.allStep]
      rw [hstep, ih]
      cases Option.all t with
      | some ws => simp
      | none => simp

/-- Once the accumulator of `Result.all` is `err`, the fold stays at that
error. -/
theorem result_foldl_err {T E : Type} (l : List (Result T E)) (e : E) :
    l.foldl Result.allStep (.err e) = .err e := by
  induction l with
  | nil => rfl
  | cons r t ih =>
    simpa [Result.allStep] using ih

/-- Running the `Result.all` fold from an `ok` accumulator prepends the
accumulated values to the result of `Result.all` on the rest. -/
theorem result_foldl_ok {T E : Type} (l : List (Result T E)) (vs : List T) :
    l.foldl Result.allStep (.ok vs) =
      match Result.all l with
      | .ok ws => .ok (vs ++ ws)
      | .err e => .err e := by
  induction l generalizing vs with
  | nil => simp [Result.all]
  | cons r t ih =>
    cases r with
    | err e =>
      simp [Result.all, Result.allStep, result_foldl_err]
    | ok v =>
      have hall : Result.all (Result.ok v :: t) =
          t.foldl Result.allStep (.ok [v]) := by
        simp [Result.all, Result.allStep]
      rw [hall, ih]
      have hstep : List.foldl Result.allStep (Result.ok vs)
          (Result.ok v :: t) = t.foldl Result.allStep (.ok (vs ++ [v])) := by
        simp [Result.allStep]
      rw [hstep, ih]
      cases Result.all t with
      | ok ws => simp
      | err e => simp

/-- A list whose elements are all `ok` folds to an `ok` accumulator. -/
theorem result_all_of_all_ok {T E : Type} (xs : List (Result T E))
    (h : ∀ r ∈ xs, ∃ v, r = Result.ok v) :
    ∃ vs, Result.all xs = Result.ok vs := by
  induction xs with
  | nil => exact ⟨[], rfl⟩
  | cons r t ih =>
    obtain ⟨v, rfl⟩ := h r (List.mem_cons_self r t)
    obtain ⟨vs, hvs⟩ := ih fun x hx => h x (List.mem_cons_of_mem _ hx)
    refine ⟨v :: vs, ?_⟩
    have : Result.all (Result.ok v :: t) =
        t.foldl Result.allStep (.ok [v]) := by
      simp [Result.all, Result.allStep]
    rw [this, result_foldl_ok, hvs]
    simp

/-! Claim theorems. -/

/-- Claim C1: `Result.all` returns the first `err` in sequence order when at
least one element is `err` (regardless of later elements), returns `ok` of
the success values in input order when every element is `ok`, and returns
`ok []` on the empty list. -/
theorem result_all_first_err_or_ok {T E : Type} (l : List (Result T E)) :
    (∀ (xs : List (Result T E)) (e : E) (ys : List (Result T E)),
      l = xs ++ Result.err e :: ys →
      (∀ r ∈ xs, ∃ v, r = Result.ok v) →
      Result.all l = Result.err e) ∧
    (∀ vs : List T, l = vs.map Result.ok → Result.all l = Result.ok vs) ∧
    Result.all ([] : List (Result T E)) = Result.ok [] := by
  refine ⟨?_, ?_, rfl⟩
  · rintro xs e ys rfl hxs
    obtain ⟨vs, hvs⟩ := result_all_of_all_ok xs hxs
    have : Result.all (xs ++ Result.err e :: ys) =
        (Result.err e :: ys).foldl Result.allStep (Result.all xs) := by
      simp [Result.all, List.foldl_append]
    rw [this, hvs]
    simp only [List.foldl_cons, Result.allStep]
    exact result_foldl_err ys e
  · rintro vs rfl
    induction vs with
    | nil => rfl
    | cons v t ih =>
      have : Result.all (List.map Result.ok (v :: t) : List (Result T E)) =
          (t.map (Result.ok : T → Result T E)).foldl Result.allStep
            (.ok [v]) := by
        simp [Result.all, Result.allStep]
      rw [this, result_foldl_ok, ih]
      simp

/-- Witness for C1 at the spec's own examples: the first error wins in
`[ok 1, err "x", ok 3]`, an all-`ok` list collects its values, and the
empty list yields `ok []`. -/
theorem result_all_first_err_or_ok_witness :
    Result.all [Result.ok 1, Result.err "x", Result.ok 3] =
      Result.err "x" ∧
    Result.all ([Result.ok 1, Result.ok 2] : List (Result Nat String)) =
      Result.ok [1, 2] ∧
    Result.all ([] : List (Result Nat String)) = Result.ok [] :=
  ⟨(result_all_first_err_or_ok [Result.ok 1, Result.err "x", Result.ok 3]).1
      [Result.ok 1] "x" [Result.ok 3] rfl
      (by intro r hr; simp at hr; exact ⟨1, hr⟩),
   (result_all_first_err_or_ok
      ([Result.ok 1, Result.ok 2] : List (Result Nat String))).2.1
      [1, 2] rfl,
   (result_all_first_err_or_ok
      ([] : List (Result Nat String))).2.2⟩

/-- Claim C2: `Option.all` returns `none` when at least one element is
`none`, returns `some` of the held values in input order when every element
is `some`, and returns `some []` on the empty list. -/
theorem option_all_none_or_collect {T : Type} (l : List (Option T)) :
    (∀ (xs ys : List (Option T)),
      l = xs ++ Option.none :: ys → Option.all l = Option.none) ∧
    (∀ vs : List T, l = vs.map Option.some → Option.all l = Option.some vs) ∧
    Option.all ([] : List (Option T)) = Option.some [] := by
  refine ⟨?_, ?_, rfl⟩
  · rintro xs ys rfl
    have : Option.all (xs ++ Option.none :: ys) =
        (Option.none :: ys).foldl Option.allStep
          (xs.foldl Option.allStep (.some [])) := by
      simp [Option.all, List.foldl_append]
    rw [this]
    have hstep : (Option.none :: ys).foldl Option.allStep
        (xs.foldl Option.allStep (.some [])) =
        ys.foldl Option.allStep .none := by
      cases xs.foldl Option.allStep (Option.some ([] : List T)) <;>
        simp [Option.allStep]
    rw [hstep, option_foldl_none]
  · rintro vs rfl
    induction vs with
    | nil => rfl
    | cons v t ih =>
      have : Option.all (List.map Option.some (v :: t)) =
          (t.map Option.some).foldl Option.allStep (.some [v]) := by
        simp [Option.all, Option.allStep]
      rw [this, option_foldl_some, ih]
      simp

/-- Witness for C2 at the spec's own examples. -/
theorem option_all_none_or_collect_witness :
    Option.all [Option.some 1, Option.none, Option.some 3] = Option.none ∧
    Option.all [Option.some 1, Option.some 2, Option.some 3] =
      Option.some [1, 2, 3] ∧
    Option.all ([] : List (Option Nat)) = Option.some [] :=
  ⟨(option_all_none_or_collect
      [Option.some 1, Option.none, Option.some 3]).1
      [Option.some 1] [Option.some 3] rfl,
   (option_all_none_or_collect
      [Option.some 1, Option.some 2, Option.some 3]).2.1 [1, 2, 3] rfl,
   (option_all_none_or_collect ([] : List (Option Nat))).2.2⟩

/-- Claim C3: `Option.map` sends `some v` to `some (f v)` and `none` to
`none`; on the `none` path the result does not depend on the function at
all (so `f` is observably not invoked). -/
theorem option_map_functor {T U : Type} (v : T) (f : T → U) :
    Option.map (Option.some v) f = Option.some (f v) ∧
    Option.map (Option.none : Option T) f = Option.none ∧
    (∀ g : T → U,
      Option.map (Option.none : Option T) f =
        Option.map (Option.none : Option T) g) :=
  ⟨rfl, rfl, fun _ => rfl⟩

/-- Claim C4: `Option.then` sends `some v` to `f v` directly and `none` to
`none`; on the `none` path the result does not depend on the function at
all (so `f` is observably not invoked). -/
theorem option_then_bind {T U : Type} (v : T) (f : T → Option U) :
    Option.«then» (Option.some v) f = f v ∧
    Option.«then» (Option.none : Option T) f = Option.none ∧
    (∀ g : T → Option U,
      Option.«then» (Option.none : Option T) f =
        Option.«then» (Option.none : Option T) g) :=
  ⟨rfl, rfl, fun _ => rfl⟩

/-- Claim C5: `Result.or` returns `left` when `left` is `ok`, and otherwise
returns `right` unchanged, whatever `right` is. -/
theorem result_or_fallback {T E : Type} (v : T) (e : E)
    (right : Result T E) :
    Result.or (Result.ok v) right = Result.ok v ∧
    Result.or (Result.err e) right = right :=
  ⟨rfl, rfl⟩

/-- Claim C6: `Result.unwrap_error` returns the error value on `err` and
the supplied default on `ok`. -/
theorem result_unwrap_error_spec {T E : Type} (v : T) (e d : E) :
    Result.unwrap_error (Result.err e : Result T E) d = e ∧
    Result.unwrap_error (Result.ok v : Result T E) d = d :=
  ⟨rfl, rfl⟩

/-- Claim C7: `Option.is_none` is the boolean negation of `Option.is_some`
on every option; `is_some (some v)` is true, `is_none (some v)` is false,
and `is_none none` is true. -/
theorem option_tag_tests {T : Type} (o : Option T) (v : T) :
    Option.is_none o = !Option.is_some o ∧
    Option.is_some (Option.some v) = true ∧
    Option.is_none (Option.some v) = false ∧
    Option.is_none (Option.none : Option T) = true :=
  ⟨rfl, rfl, rfl, rfl⟩

/-- Claim C8: `Result.replace` substitutes the given value on `ok` and
leaves an `err` unchanged, error payload included. -/
theorem result_replace_spec {T E U : Type} (v : T) (e : E) (u : U) :
    Result.replace (Result.ok v : Result T E) u = Result.ok u ∧
    Result.replace (Result.err e : Result T E) u = Result.err e :=
  ⟨rfl, rfl⟩

/-- Claim C9: every exported operation of both modules is deterministic —
two runs on equal inputs (and equal caller-supplied functions) return equal
outputs. One conjunct per exported operation of `src/option.ts` and
`src/result.ts`. -/
theorem ops_deterministic {T E U : Type} :
    (∀ v v' : T, v = v' → Option.some v = Option.some v') ∧
    (∀ o o' : Option T, o = o' → Option.is_some o = Option.is_some o') ∧
    (∀ o o' : Option T, o = o' → Option.is_none o = Option.is_none o') ∧
    (∀ (o o' : Option T) (d d' : T), o = o' → d = d' →
      Option.unwrap o d = Option.unwrap o' d') ∧
    (∀ (o o' : Option T) (f f' : T → U), o = o' → f = f' →
      Option.map o f = Option.map o' f') ∧
    (∀ (o o' : Option T) (f f' : T → Option U), o = o' → f = f' →
      Option.«then» o f = Option.«then» o' f') ∧
    (∀ l l' : List (Option T), l = l' → Option.all l = Option.all l') ∧
    (∀ v v' : T, v = v' →
      (Result.ok v : Result T E) = Result.ok v') ∧
    (∀ e e' : E, e = e' →
      (Result.err e : Result T E) = Result.err e') ∧
    (∀ r r' : Result T E, r = r' → Result.is_ok r = Result.is_ok r') ∧
    (∀ r r' : Result T E, r = r' → Result.is_err r = Result.is_err r') ∧
    (∀ (r r' : Result T E) (d d' : T), r = r' → d = d' →
      Result.unwrap r d = Result.unwrap r' d') ∧
    (∀ (r r' : Result T E) (d d' : E), r = r' → d = d' →
      Result.unwrap_error r d = Result.unwrap_error r' d') ∧
    (∀ (r r' : Result T E) (f f' : T → U), r = r' → f = f' →
      Result.map r f = Result.map r' f') ∧
    (∀ (r r' : Result T E) (f f' : E → U), r = r' → f = f' →
      Result.map_error r f = Result.map_error r' f') ∧
    (∀ (r r' : Result T E) (u u' : U), r = r' → u = u' →
      Result.replace r u = Result.replace r' u') ∧
    (∀ (r r' : Result T E) (u u' : U), r = r' → u = u' →
      Result.replace_error r u = Result.replace_error r' u') ∧
    (∀ l l' r r' : Result T E, l = l' → r = r' →
      Result.or l r = Result.or l' r') ∧
    (∀ (r r' : Result T E) (f f' : T → Result U E), r = r' → f = f' →
      Result.«then» r f = Result.«then» r' f') ∧
    (∀ l l' : List (Result T E), l = l' → Result.all l = Result.all l') :=
  ⟨fun _ _ h => by rw [h], fun _ _ h => by rw [h], fun _ _ h => by rw [h],
   fun _ _ _ _ h h' => by rw [h, h'], fun _ _ _ _ h h' => by rw [h, h'],
   fun _ _ _ _ h h' => by rw [h, h'], fun _ _ h => by rw [h],
   fun _ _ h => by rw [h], fun _ _ h => by rw [h], fun _ _ h => by rw [h],
   fun _ _ h => by rw [h], fun _ _ _ _ h h' => by rw [h, h'],
   fun _ _ _ _ h h' => by rw [h, h'], fun _ _ _ _ h h' => by rw [h, h'],
   fun _ _ _ _ h h' => by rw [h, h'], fun _ _ _ _ h h' => by rw [h, h'],
   fun _ _ _ _ h h' => by rw [h, h'], fun _ _ _ _ h h' => by rw [h, h'],
   fun _ _ _ _ h h' => by rw [h, h'], fun _ _ h => by rw [h]⟩

/-- Witness for C9: two runs of `Option.map` (and of `Result.all`) on the
same concrete input agree. -/
theorem ops_deterministic_witness :
    Option.map (Option.some 1) (fun n => n + 1) =
      Option.map (Option.some 1) (fun n => n + 1) ∧
    Result.all ([Result.ok 1, Result.err "x"] : List (Result Nat String)) =
      Result.all [Result.ok 1, Result.err "x"] :=
  ⟨(@ops_deterministic Nat Nat Nat).2.2.2.2.1
      (Option.some 1) (Option.some 1) (fun n => n + 1) (fun n => n + 1)
      rfl rfl,
   (@ops_deterministic Nat String
      Nat).2.2.2.2.2.2.2.2.2.2.2.2.2.2.2.2.2.2.2
      [Result.ok 1, Result.err "x"] [Result.ok 1, Result.err "x"] rfl⟩

/-- Claim C10: `Option.all` is a homomorphism for list concatenation — on
`xs ++ ys` it returns `some (vs ++ ws)` when `all xs = some vs` and
`all ys = some ws`, and `none` when either side is `none`. -/
theorem option_all_append {T : Type} (xs ys : List (Option T)) :
    (∀ vs ws : List T, Option.all xs = Option.some vs →
      Option.all ys = Option.some ws →
      Option.all (xs ++ ys) = Option.some (vs ++ ws)) ∧
    ((Option.all xs = Option.none ∨ Option.all ys = Option.none) →
      Option.all (xs ++ ys) = Option.none) := by
  have hsplit : Option.all (xs ++ ys) =
      ys.foldl Option.allStep (Option.all xs) := by
    simp [Option.all, List.foldl_append]
  constructor
  · intro vs ws hx hy
    rw [hsplit, hx, option_foldl_some, hy]
  · rintro (hx | hy)
    · rw [hsplit, hx, option_foldl_none]
    · rw [hsplit]
      cases hax : Option.all xs with
      | none => rw [option_foldl_none]
      | some vs => rw [option_foldl_some, hy]

/-- Witness for C10 at concrete lists: an all-`some` concatenation collects
both halves, and a `none` in either half poisons the whole. -/
theorem option_all_append_witness :
    Option.all ([Option.some 1] ++ [Option.some 2, Option.some 3]) =
      Option.some [1, 2, 3] ∧
    Option.all ([Option.some 1] ++ [Option.none]) = Option.none :=
  ⟨(option_all_append [Option.some 1] [Option.some 2, Option.some 3]).1
      [1] [2, 3] rfl rfl,
   (option_all_append [Option.some 1] [Option.none]).2 (Or.inr rfl)⟩

end BetterReturns
